import Mathlib

/-!
Shallow embedding of the CompactArduino blink program.

The repository ships one source file with two variants of the same program
(separated in the file), both of the shape:

  int main() {
    DDRB |= (1 << PB5);        -- variant 1 (PB5 from <avr/io.h>, value 5)
    while (1) {
      PORTB ^= (1 << PB5);
      _delay_ms(1000);
    }
  }

  int main() {
    DDRB |= (1 << 5);          -- variant 2, literal bit index
    while (1) {
      PORTB ^= (1 << 5);
      _delay_ms(1000);
    }
  }

Registers DDRB and PORTB are 8-bit memory-mapped registers.  The bitwise
operations `|= (1 << 5)` and `^= (1 << 5)` never produce a value outside
0..255 when applied to a value in 0..255, so the registers are modelled as
`Nat` and the operations as `Nat.lor` / `Nat.xor` with `1 <<< 5`; no
wrap-around is needed for these operations.
-/

/-- Bit index of the on-board LED pin in the B register set.
`PB5` is defined in `<avr/io.h>` for the ATmega328p as bit 5; the tutorial
text in the repository also states that pin 13 is PB5, the fifth bit. -/
def PB5 : Nat := 5

/-- The two 8-bit hardware registers the program touches. -/
structure RegState where
  DDRB : Nat
  PORTB : Nat
  deriving Repr, DecidableEq

/-- `DDRB |= (1 << PB5);` — the one-time direction configuration. -/
def setupStep (s : RegState) : RegState :=
  { s with DDRB := s.DDRB ||| (1 <<< PB5) }

/-- `PORTB ^= (1 << PB5);` — the toggle performed at the top of each loop
iteration (the `_delay_ms(1000)` that follows does not change registers). -/
def toggleStep (s : RegState) : RegState :=
  { s with PORTB := s.PORTB ^^^ (1 <<< PB5) }

/-- Register state after the one-time setup and `n` full loop iterations. -/
def stateAfter (s : RegState) : Nat → RegState
  | 0 => setupStep s
  | n + 1 => toggleStep (stateAfter s n)

/-- Externally observable events: register writes and delay pauses. -/
inductive Event where
  | writeDDRB (v : Nat)
  | writePORTB (v : Nat)
  | delay (ms : Nat)
  deriving Repr, DecidableEq

/-- Observable events emitted by `n` loop iterations started in state `s`:
each iteration writes the toggled PORTB value and then pauses 1000 ms. -/
def loopTrace (s : RegState) : Nat → List Event
  | 0 => []
  | n + 1 =>
      Event.writePORTB (toggleStep s).PORTB :: Event.delay 1000 ::
        loopTrace (toggleStep s) n

/-- Observable events of the whole program through `n` loop iterations:
the single DDRB write of the setup line, then the loop's events. -/
def progTrace (s : RegState) (n : Nat) : List Event :=
  Event.writeDDRB (setupStep s).DDRB :: loopTrace (setupStep s) n

/-- Is this event a write to DDRB? -/
def isDDRBWrite : Event → Bool
  | Event.writeDDRB _ => true
  | _ => false

/-- Milliseconds of pause an event contributes (0 for register writes). -/
def eventDelay : Event → Nat
  | Event.delay m => m
  | Event.writeDDRB _ => 0
  | Event.writePORTB _ => 0

/-- Total time spent in delay pauses over a list of events. -/
def delayTotal (es : List Event) : Nat := (es.map eventDelay).sum

/-! ### Second variant (`1 << 5` written with the literal bit index) -/

namespace V2

/-- `DDRB |= (1 << 5);` of the second variant. -/
def setupStep (s : RegState) : RegState :=
  { s with DDRB := s.DDRB ||| (1 <<< 5) }

/-- `PORTB ^= (1 << 5);` of the second variant. -/
def toggleStep (s : RegState) : RegState :=
  { s with PORTB := s.PORTB ^^^ (1 <<< 5) }

/-- Observable events of `n` loop iterations of the second variant. -/
def loopTrace (s : RegState) : Nat → List Event
  | 0 => []
  | n + 1 =>
      Event.writePORTB (toggleStep s).PORTB :: Event.delay 1000 ::
        loopTrace (toggleStep s) n

/-- Observable events of the second variant through `n` loop iterations. -/
def progTrace (s : RegState) (n : Nat) : List Event :=
  Event.writeDDRB (setupStep s).DDRB :: loopTrace (setupStep s) n

end V2

/-! ### Small-step semantics of `main` -/

/-- Program points of `main`: before the setup line, at the `while (1)` test,
between the toggle and the delay, and past the loop (the `return` of `main`,
which control never reaches). -/
inductive PC where
  | start
  | loopHead
  | afterToggle
  | done
  deriving Repr, DecidableEq

/-- A configuration: program point plus register state. -/
structure Config where
  pc : PC
  regs : RegState
  deriving Repr, DecidableEq

/-- The constant condition of `while (1)`. -/
def whileCond : Nat := 1

/-- One step of `main`: run the setup line, test the loop condition (entering
the body when the condition is nonzero, leaving the loop when it is zero),
or finish the delay and return to the loop test. -/
inductive Step : Config → Config → Prop where
  | setup (s : RegState) :
      Step ⟨PC.start, s⟩ ⟨PC.loopHead, setupStep s⟩
  | enter (s : RegState) (h : whileCond ≠ 0) :
      Step ⟨PC.loopHead, s⟩ ⟨PC.afterToggle, toggleStep s⟩
  | leave (s : RegState) (h : whileCond = 0) :
      Step ⟨PC.loopHead, s⟩ ⟨PC.done, s⟩
  | delay (s : RegState) :
      Step ⟨PC.afterToggle, s⟩ ⟨PC.loopHead, s⟩

/-- Configurations reachable from the initial configuration with registers `s`. -/
def Reachable (s : RegState) (c : Config) : Prop :=
  Relation.ReflTransGen Step ⟨PC.start, s⟩ c

/-! ### Helper lemmas -/

theorem setupStep_PORTB (s : RegState) : (setupStep s).PORTB = s.PORTB := rfl

theorem toggleStep_DDRB (s : RegState) : (toggleStep s).DDRB = s.DDRB := rfl

theorem toggleStep_testBit5 (s : RegState) :
    (toggleStep s).PORTB.testBit 5 = !(s.PORTB.testBit 5) := by
  show (s.PORTB ^^^ (1 <<< PB5)).testBit 5 = !(s.PORTB.testBit 5)
  rw [Nat.testBit_xor]
  have h32 : ((1 <<< PB5 : Nat)).testBit 5 = true := by decide
  rw [h32, Bool.xor_true]

theorem toggleStep_testBit_ne (s : RegState) (i : Nat) (h : i ≠ 5) :
    (toggleStep s).PORTB.testBit i = s.PORTB.testBit i := by
  show (s.PORTB ^^^ (1 <<< PB5)).testBit i = s.PORTB.testBit i
  rw [Nat.testBit_xor]
  have h32 : ((1 <<< PB5 : Nat)) = 32 := by decide
  rw [h32]
  rw [show ((32 : Nat)).testBit i = false by
    rw [show (32 : Nat) = 2 ^ 5 by norm_num, Nat.testBit_two_pow]
    simpa using fun hh => h hh.symm]
  rw [Bool.xor_false]

theorem setupStep_testBit_ne (s : RegState) (i : Nat) (h : i ≠ 5) :
    (setupStep s).DDRB.testBit i = s.DDRB.testBit i := by
  show (s.DDRB ||| (1 <<< PB5)).testBit i = s.DDRB.testBit i
  rw [Nat.testBit_or]
  rw [show ((1 <<< PB5 : Nat)) = 2 ^ 5 by decide]
  rw [Nat.testBit_two_pow]
  rw [decide_eq_false (fun hh => absurd hh.symm h), Bool.or_false]

theorem stateAfter_DDRB (s : RegState) (n : Nat) :
    (stateAfter s n).DDRB = (setupStep s).DDRB := by
  induction n with
  | zero => rfl
  | succ n ih => simpa [stateAfter, toggleStep] using ih

theorem stateAfter_testBit5 (s : RegState) (n : Nat) :
    (stateAfter s n).PORTB.testBit 5 =
      xor (s.PORTB.testBit 5) (decide (n % 2 = 1)) := by
  induction n with
  | zero => simp [stateAfter, setupStep_PORTB]
  | succ n ih =>
      rw [stateAfter, toggleStep_testBit5, ih]
      rcases Nat.even_or_odd n with he | ho
      · have h0 : n % 2 = 0 := Nat.even_iff.mp he
        have h1 : (n + 1) % 2 = 1 := by omega
        simp [h0, h1]
      · have h1 : n % 2 = 1 := Nat.odd_iff.mp ho
        have h0 : (n + 1) % 2 = 0 := by omega
        simp [h0, h1]

theorem delayTotal_loopTrace (s : RegState) (n : Nat) :
    delayTotal (loopTrace s n) = 1000 * n := by
  induction n generalizing s with
  | zero => rfl
  | succ n ih =>
      simp only [loopTrace, delayTotal, List.map_cons, List.sum_cons, eventDelay]
      rw [show (List.map eventDelay (loopTrace (toggleStep s) n)).sum
            = delayTotal (loopTrace (toggleStep s) n) from rfl, ih]
      ring

theorem stateAfter_testBit_ne (s : RegState) (n : Nat) (i : Nat) (h : i ≠ 5) :
    (stateAfter s n).PORTB.testBit i = s.PORTB.testBit i := by
  induction n with
  | zero => rw [stateAfter, setupStep_PORTB]
  | succ n ih => rw [stateAfter, toggleStep_testBit_ne _ _ h, ih]

theorem loopTrace_eq_V2 (n : Nat) : ∀ s : RegState, loopTrace s n = V2.loopTrace s n := by
  induction n with
  | zero => intro s; rfl
  | succ n ih =>
      intro s
      rw [loopTrace, V2.loopTrace, show V2.toggleStep s = toggleStep s from rfl, ih]

/-! ### Claims -/

/-- C1: after the one-time direction configuration, PORTB bit 5 after `n`
iterations equals its initial value XOR (n mod 2); each iteration holds the
level for one delay of 1000 time units, so `n` iterations pause 1000·n units
in total, any two consecutive iterations pause 2000 units, and the level is
periodic with period 2 iterations (2000 time units). -/
theorem C1_level_alternates (s : RegState) (n : Nat) :
    (stateAfter s n).PORTB.testBit 5 =
      xor (s.PORTB.testBit 5) (decide (n % 2 = 1)) ∧
    delayTotal (loopTrace (setupStep s) n) = 1000 * n ∧
    delayTotal (loopTrace (stateAfter s n) 1) = 1000 ∧
    delayTotal (loopTrace (stateAfter s n) 2) = 2000 ∧
    (stateAfter s (n + 2)).PORTB.testBit 5 = (stateAfter s n).PORTB.testBit 5 := by
  refine ⟨stateAfter_testBit5 s n, delayTotal_loopTrace _ n, delayTotal_loopTrace _ 1,
    delayTotal_loopTrace _ 2, ?_⟩
  rw [stateAfter_testBit5, stateAfter_testBit5]
  have : (n + 2) % 2 = n % 2 := by omega
  rw [this]

/-- C2: the variant written with `(1 << PB5)` and the variant written with
`(1 << 5)` produce identical event traces (the same DDRB write, the same
PORTB writes, the same delay pauses) from every initial register state. -/
theorem C2_variants_equivalent (s : RegState) (n : Nat) :
    progTrace s n = V2.progTrace s n := by
  rw [progTrace, V2.progTrace, show V2.setupStep s = setupStep s from rfl,
    loopTrace_eq_V2]

/-- C9: the loop toggles with XOR, so the level after the first iteration is
the complement of the initial PORTB bit 5; in particular from the hardware
reset value (bit 5 clear) the first iteration drives the output high. -/
theorem C9_first_level_complement (s : RegState) :
    (stateAfter s 1).PORTB.testBit 5 = !(s.PORTB.testBit 5) ∧
    (s.PORTB.testBit 5 = false → (stateAfter s 1).PORTB.testBit 5 = true) := by
  have h := stateAfter_testBit5 s 1
  constructor
  · rw [h]; cases s.PORTB.testBit 5 <;> rfl
  · intro h0; rw [h, h0]; rfl

theorem C9_first_level_complement_witness :
    (stateAfter ⟨0, 0⟩ 1).PORTB.testBit 5 = true :=
  (C9_first_level_complement ⟨0, 0⟩).2 (by decide)

/-- C10: the direction write `DDRB |= (1 << PB5)` is idempotent: on a state
whose DDRB bit 5 is already set it leaves DDRB unchanged, and repeating the
whole setup step changes nothing. -/
theorem C10_setup_idempotent (s : RegState) :
    (s.DDRB.testBit 5 = true → (setupStep s).DDRB = s.DDRB) ∧
    setupStep (setupStep s) = setupStep s := by
  have hs : (1 <<< PB5 : Nat) = 2 ^ 5 := by decide
  constructor
  · intro h
    show s.DDRB ||| (1 <<< PB5) = s.DDRB
    rw [hs]
    apply Nat.eq_of_testBit_eq
    intro i
    rw [Nat.testBit_or, Nat.testBit_two_pow]
    by_cases hi : 5 = i
    · subst hi; rw [h]; rfl
    · rw [decide_eq_false hi, Bool.or_false]
  · show RegState.mk ((s.DDRB ||| (1 <<< PB5)) ||| (1 <<< PB5)) s.PORTB = setupStep s
    have har : (s.DDRB ||| (1 <<< PB5)) ||| (1 <<< PB5) = s.DDRB ||| (1 <<< PB5) := by
      apply Nat.eq_of_testBit_eq
      intro i
      rw [Nat.testBit_or, Nat.testBit_or, Bool.or_assoc, Bool.or_self]
    rw [har]
    rfl

theorem C10_setup_idempotent_witness :
    (setupStep ⟨32, 0⟩).DDRB = (⟨32, 0⟩ : RegState).DDRB :=
  (C10_setup_idempotent ⟨32, 0⟩).1 (by decide)

/-- C8: frame invariant — after the setup and any number of iterations, every
bit of DDRB and of PORTB other than bit 5 still has its initial value. -/
theorem C8_frame_invariant (s : RegState) (n : Nat) (i : Nat) (h : i ≠ 5) :
    (stateAfter s n).DDRB.testBit i = s.DDRB.testBit i ∧
    (stateAfter s n).PORTB.testBit i = s.PORTB.testBit i := by
  constructor
  · rw [stateAfter_DDRB, setupStep_testBit_ne _ _ h]
  · exact stateAfter_testBit_ne s n i h

theorem C8_frame_invariant_witness :
    (stateAfter ⟨3, 200⟩ 5).DDRB.testBit 7 = (⟨3, 200⟩ : RegState).DDRB.testBit 7 ∧
    (stateAfter ⟨3, 200⟩ 5).PORTB.testBit 7 = (⟨3, 200⟩ : RegState).PORTB.testBit 7 :=
  C8_frame_invariant ⟨3, 200⟩ 5 7 (by decide)

theorem loopTrace_countP_ddrb (n : Nat) : ∀ s : RegState,
    (loopTrace s n).countP (fun e => isDDRBWrite e) = 0 := by
  induction n with
  | zero => intro s; rfl
  | succ n ih =>
      intro s
      rw [loopTrace, List.countP_cons, List.countP_cons, ih]
      rfl

theorem loopTrace_length (s : RegState) (n : Nat) :
    (loopTrace s n).length = 2 * n := by
  induction n generalizing s with
  | zero => rfl
  | succ n ih =>
      simp only [loopTrace, List.length_cons, ih]
      ring

theorem loopTrace_get (k : Nat) : ∀ (s : RegState) (n : Nat), k < n →
    (loopTrace s n)[2 * k]? =
      some (Event.writePORTB ((toggleStep^[k + 1] s).PORTB)) ∧
    (loopTrace s n)[2 * k + 1]? = some (Event.delay 1000) := by
  induction k with
  | zero =>
      intro s n h
      match n, h with
      | n + 1, _ =>
        constructor
        · rw [loopTrace]
          rw [show (2 * 0 : Nat) = 0 from rfl, List.getElem?_cons_zero,
            Function.iterate_one]
        · rw [loopTrace]
          rw [show (2 * 0 + 1 : Nat) = 0 + 1 from rfl, List.getElem?_cons_succ,
            List.getElem?_cons_zero]
  | succ k ih =>
      intro s n h
      match n, h with
      | n + 1, h =>
        have hk : k < n := by omega
        have hih := ih (toggleStep s) n hk
        constructor
        · rw [show 2 * (k + 1) = 2 * k + 1 + 1 by ring, loopTrace,
            List.getElem?_cons_succ, List.getElem?_cons_succ,
            Function.iterate_succ_apply]
          exact hih.1
        · rw [show 2 * (k + 1) + 1 = (2 * k + 1) + 1 + 1 by ring, loopTrace,
            List.getElem?_cons_succ, List.getElem?_cons_succ]
          exact hih.2

theorem delay_mem_loopTrace (n : Nat) : ∀ (s : RegState) (m : Nat),
    Event.delay m ∈ loopTrace s n → m = 1000 := by
  induction n with
  | zero => intro s m h; cases h
  | succ n ih =>
      intro s m h
      simp only [loopTrace, List.mem_cons] at h
      rcases h with h | h | h
      · exact Event.noConfusion h
      · injection h
      · exact ih _ _ h

theorem delay_mem_progTrace (s : RegState) (n : Nat) (m : Nat)
    (h : Event.delay m ∈ progTrace s n) : m = 1000 := by
  simp only [progTrace, List.mem_cons] at h
  rcases h with h | h
  · exact Event.noConfusion h
  · exact delay_mem_loopTrace n _ m h

theorem reachable_pc_ne_done (s : RegState) (c : Config) (h : Reachable s c) :
    c.pc ≠ PC.done := by
  induction h with
  | refl => exact fun hh => PC.noConfusion hh
  | tail _ hst _ =>
      cases hst with
      | setup s => exact fun hh => PC.noConfusion hh
      | enter s h => exact fun hh => PC.noConfusion hh
      | leave s h => exact absurd h (by decide)
      | delay s => exact fun hh => PC.noConfusion hh

/-- C3: DDRB is written exactly once, by the setup line, and that write is
the very first event of the trace — before every PORTB toggle; the loop
events contain no DDRB write at all. -/
theorem C3_ddrb_written_once (s : RegState) (n : Nat) :
    (progTrace s n).countP (fun e => isDDRBWrite e) = 1 ∧
    (loopTrace (setupStep s) n).countP (fun e => isDDRBWrite e) = 0 ∧
    progTrace s n = Event.writeDDRB (setupStep s).DDRB :: loopTrace (setupStep s) n := by
  refine ⟨?_, loopTrace_countP_ddrb n _, rfl⟩
  rw [progTrace]
  rw [List.countP_cons_of_pos _ _ (by rfl)]
  rw [loopTrace_countP_ddrb]

/-- C4: the program never terminates — every configuration reachable from the
entry point has a successor under the step relation, and the program point
past the loop (the return of `main`) is never reached. -/
theorem C4_never_terminates (s : RegState) (c : Config) (h : Reachable s c) :
    c.pc ≠ PC.done ∧ ∃ c2 : Config, Step c c2 := by
  refine ⟨reachable_pc_ne_done s c h, ?_⟩
  obtain ⟨pc, regs⟩ := c
  cases pc with
  | start => exact ⟨_, Step.setup regs⟩
  | loopHead => exact ⟨_, Step.enter regs (by decide)⟩
  | afterToggle => exact ⟨_, Step.delay regs⟩
  | done => exact absurd rfl (reachable_pc_ne_done s _ h)

theorem C4_never_terminates_witness :
    (⟨PC.start, ⟨0, 0⟩⟩ : Config).pc ≠ PC.done ∧
    ∃ c2 : Config, Step ⟨PC.start, ⟨0, 0⟩⟩ c2 :=
  C4_never_terminates ⟨0, 0⟩ ⟨PC.start, ⟨0, 0⟩⟩ Relation.ReflTransGen.refl

/-- C5: each loop iteration contributes exactly two events, in order a PORTB
write then a 1000-unit delay: the trace of `n` iterations has length `2·n`,
the event at position `2·k` is the PORTB write of iteration `k` and the event
at position `2·k + 1` is `delay 1000`; no delay event in the whole program
trace carries any value other than 1000. -/
theorem C5_iteration_shape (s : RegState) (n k : Nat) (h : k < n) :
    (loopTrace s n).length = 2 * n ∧
    (loopTrace s n)[2 * k]? =
      some (Event.writePORTB ((toggleStep^[k + 1] s).PORTB)) ∧
    (loopTrace s n)[2 * k + 1]? = some (Event.delay 1000) ∧
    ∀ m : Nat, Event.delay m ∈ progTrace s n → m = 1000 :=
  ⟨loopTrace_length s n, (loopTrace_get k s n h).1, (loopTrace_get k s n h).2,
    fun m hm => delay_mem_progTrace s n m hm⟩

theorem C5_iteration_shape_witness :
    (loopTrace ⟨32, 0⟩ 2).length = 2 * 2 ∧
    (loopTrace ⟨32, 0⟩ 2)[2 * 1]? =
      some (Event.writePORTB ((toggleStep^[1 + 1] ⟨32, 0⟩).PORTB)) ∧
    (loopTrace ⟨32, 0⟩ 2)[2 * 1 + 1]? = some (Event.delay 1000) ∧
    ∀ m : Nat, Event.delay m ∈ progTrace ⟨32, 0⟩ 2 → m = 1000 :=
  C5_iteration_shape ⟨32, 0⟩ 2 1 (by decide)

/-- C7: the step relation of `main` is deterministic — from any configuration
the successor is unique, so two runs from the same initial register state
follow identical configuration sequences and emit identical events. -/
theorem C7_step_deterministic (c c₁ c₂ : Config) (h₁ : Step c c₁)
    (h₂ : Step c c₂) : c₁ = c₂ := by
  cases h₁ <;> cases h₂ <;> first | rfl | simp_all [whileCond]

theorem C7_step_deterministic_witness :
    (⟨PC.loopHead, setupStep ⟨0, 0⟩⟩ : Config) = ⟨PC.loopHead, setupStep ⟨0, 0⟩⟩ :=
  C7_step_deterministic ⟨PC.start, ⟨0, 0⟩⟩ _ _ (Step.setup ⟨0, 0⟩) (Step.setup ⟨0, 0⟩)

/-! ### Reported binary footprints

The tutorial document of the repository reports, for each successive variant
of the blink program, the code-memory footprint and the statically-allocated
data footprint printed by the toolchain.  The seven reported measurements, in
the order the document presents the variants (named-constant original,
preprocessor-constant version, direct DDRB write, direct PORTB writes,
condensed setup/loop form, low-level delay primitive, single `main`): -/

/-- Code-memory footprints in bytes: 924, 924, 860, 640, 602, 474, 162. -/
def codeSizes : List Nat := [924, 924, 860, 640, 602, 474, 162]

/-- Statically-allocated data footprints in bytes: 9 for every variant except
the final single-entry-point one, which reports 0. -/
def dataSizes : List Nat := [9, 9, 9, 9, 9, 9, 0]

/-- C6: across the documented optimization sequence the reported code-memory
footprint never increases, and the data footprint is 9 bytes for every
variant before the final one and 0 bytes for the final single-`main`
variant. -/
theorem C6_footprints_nonincreasing :
    List.Chain' (fun a b => b ≤ a) codeSizes ∧
    dataSizes.getLast? = some 0 ∧
    dataSizes.dropLast = [9, 9, 9, 9, 9, 9] := by
  refine ⟨?_, by decide, by decide⟩
  norm_num [codeSizes, List.chain'_cons, List.chain'_singleton]
